import Mathlib

/-!
Verification development for the `ocr_server` image-normalization and
question-segmentation pipelines (`erase_server.py`, `main.py`).

The Python source is shallowly embedded: numpy float coordinates become
rationals (`ℚ`), pixel buffers become a dimensions-plus-lookup structure,
and the OpenCV library calls whose numeric output the claims never inspect
(color-space conversion, adaptive threshold, Gaussian blur, inpainting,
warping, Hough detection) are abstracted as explicit collaborator
parameters while every piece of control flow, mask algebra, thresholding
and arithmetic written in the repository itself is translated directly.
-/

/-! ## Geometry: corner ordering (`order_points`, erase_server.py 191-207) -/

/-- A 2D point with rational coordinates (numpy float32 pair in the source). -/
abbrev Point := ℚ × ℚ

/-- `pts[np.argmin([f p for p in pts])]`: the first element of the list
attaining the minimal key `f` (numpy `argmin` returns the first index of
the minimum). -/
def selectMinBy (f : Point → ℚ) : List Point → Point
  | [] => (0, 0)
  | [p] => p
  | p :: q :: rest =>
    let m := selectMinBy f (q :: rest)
    if f p ≤ f m then p else m

/-- `pts[np.argmax([f p for p in pts])]`: the first element of the list
attaining the maximal key `f`. -/
def selectMaxBy (f : Point → ℚ) : List Point → Point
  | [] => (0, 0)
  | [p] => p
  | p :: q :: rest =>
    let m := selectMaxBy f (q :: rest)
    if f p < f m then m else p

/-- The ordered rectangle produced by `order_points`:
row 0 = top-left, row 1 = top-right, row 2 = bottom-right, row 3 = bottom-left. -/
structure OrderedRect where
  tl : Point
  tr : Point
  br : Point
  bl : Point
deriving DecidableEq, Repr

/-- `order_points` (erase_server.py 191-207).
`s = pts.sum(axis=1)` is `x + y`; `rect[0] = pts[argmin s]`, `rect[2] = pts[argmax s]`.
`diff = np.diff(pts, axis=1)` is `y - x`; `rect[1] = pts[argmin diff]`,
`rect[3] = pts[argmax diff]`. -/
def order_points (pts : List Point) : OrderedRect where
  tl := selectMinBy (fun p => p.1 + p.2) pts
  tr := selectMinBy (fun p => p.2 - p.1) pts
  br := selectMaxBy (fun p => p.1 + p.2) pts
  bl := selectMaxBy (fun p => p.2 - p.1) pts

/-! ## Geometry: perspective target size (`perspective_transform`, erase_server.py 251-282) -/

/-- `int(np.sqrt(q))` for a nonnegative rational `q` under exact real
semantics: the floor of the square root. -/
def intSqrt (q : ℚ) : ℕ := Nat.sqrt (Int.floor q).toNat

/-- Squared Euclidean distance between two points, as written inline in
`perspective_transform`: `(p0 - q0) ** 2 + (p1 - q1) ** 2`. -/
def edgeSq (p q : Point) : ℚ := (p.1 - q.1) ^ 2 + (p.2 - q.2) ^ 2

/-- `int(np.sqrt(((p0 - q0) ** 2) + ((p1 - q1) ** 2)))`: the
integer-truncated Euclidean length of the edge from `p` to `q`. -/
def truncEdgeLen (p q : Point) : ℕ := intSqrt (edgeSq p q)

/-- The `(maxWidth, maxHeight)` computed by `perspective_transform`
(erase_server.py 258-266): width from the bottom (`br`,`bl`) and top
(`tr`,`tl`) edges, height from the right (`tr`,`br`) and left (`tl`,`bl`)
edges of the ordered quad. -/
def perspective_transform_size (pts : List Point) : ℕ × ℕ :=
  let rect := order_points pts
  let widthA := intSqrt (edgeSq rect.br rect.bl)
  let widthB := intSqrt (edgeSq rect.tr rect.tl)
  let heightA := intSqrt (edgeSq rect.tr rect.br)
  let heightB := intSqrt (edgeSq rect.tl rect.bl)
  (max widthA widthB, max heightA heightB)

/-! ## Skew estimation (`detect_and_correct_rotation`, erase_server.py 319-382)

The Hough transform and `arctan2` on pixel data are outside the rational
fragment; the embedding starts from the list of per-segment angles the
source computes at line 343 (`None` when `cv2.HoughLinesP` returned no
lines) and models everything from line 344 on exactly. -/

/-- The angle filtering/folding loop (erase_server.py 344-348): keep angles
within 45° of horizontal; fold angles in `(45°,135°)` by `∓90°`; drop the rest. -/
def foldRawAngles (raw : List ℚ) : List ℚ :=
  raw.foldr
    (fun angle acc =>
      if |angle| < 45 then angle :: acc
      else if |angle| > 45 ∧ |angle| < 135 then
        (if angle > 0 then angle - 90 else angle + 90) :: acc
      else acc) []

/-- `np.median`: sort ascending; middle element for odd length, mean of the
two middle elements for even length. -/
def npMedian (l : List ℚ) : ℚ :=
  let s := List.insertionSort (· ≤ ·) l
  let n := s.length
  if n % 2 = 1 then s.getD (n / 2) 0
  else (s.getD (n / 2 - 1) 0 + s.getD (n / 2) 0) / 2

/-- `detect_and_correct_rotation` (erase_server.py 319-382), from the
per-segment angle list onward.  `rotate` stands for the
`getRotationMatrix2D`/`warpAffine` canvas-expanding rotation (lines 364-380),
applied only on the non-trivial path.  Returns the (possibly rotated) image
and the applied angle. -/
def detect_and_correct_rotation {α : Type} (rotate : α → ℚ → α) (img : α)
    (houghAngles : Option (List ℚ)) : α × ℚ :=
  match houghAngles with
  | none => (img, 0)
  | some raw =>
    let angles := foldRawAngles raw
    if angles = [] then (img, 0)
    else
      let median := npMedian angles
      if |median| < 1/2 then (img, 0)
      else
        let clamped := if |median| > 15 then (if median > 0 then (15 : ℚ) else -15) else median
        (rotate img clamped, clamped)

/-! ## Pixel buffers and library collaborators

An image is a height, a width and a total pixel lookup (row, column);
operations written in the repository are translated pointwise, while the
OpenCV kernels whose numeric output the repository never branches on
(`cvtColor` to HSV/gray, `adaptiveThreshold`, `GaussianBlur`, `inpaint`)
are collaborator parameters that preserve the buffer shape, as the real
calls do. -/

/-- A 3-channel pixel (`uint8` triple in the source). -/
structure Pix where
  c0 : ℕ
  c1 : ℕ
  c2 : ℕ
deriving DecidableEq, Repr

/-- A pixel buffer: dimensions plus a total per-coordinate lookup. -/
structure Img (α : Type) where
  h : ℕ
  w : ℕ
  pix : ℕ → ℕ → α

/-- `cv2.cvtColor(img, cv2.COLOR_RGB2BGR)`: channel reversal. -/
def cvtRGB2BGR (img : Img Pix) : Img Pix :=
  ⟨img.h, img.w, fun r c => ⟨(img.pix r c).c2, (img.pix r c).c1, (img.pix r c).c0⟩⟩

/-- `cv2.cvtColor(img, cv2.COLOR_BGR2RGB)`: channel reversal. -/
def cvtBGR2RGB (img : Img Pix) : Img Pix :=
  ⟨img.h, img.w, fun r c => ⟨(img.pix r c).c2, (img.pix r c).c1, (img.pix r c).c0⟩⟩

/-- The shape-preserving OpenCV collaborators used by the erase/crop code:
BGR→HSV conversion, BGR→grayscale conversion, the
`adaptiveThreshold(gray, 255, ADAPTIVE_THRESH_GAUSSIAN_C, THRESH_BINARY_INV, 15, 8)`
call, and `GaussianBlur(img, (3, 3), 0)`. -/
structure CV where
  hsvPix : Img Pix → ℕ → ℕ → Pix
  grayPix : Img Pix → ℕ → ℕ → ℕ
  adaptivePix : Img ℕ → ℕ → ℕ → ℕ
  blurPix : Img Pix → ℕ → ℕ → Pix

def CV.bgr2hsv (cv : CV) (img : Img Pix) : Img Pix := ⟨img.h, img.w, cv.hsvPix img⟩

def CV.bgr2gray (cv : CV) (img : Img Pix) : Img ℕ := ⟨img.h, img.w, cv.grayPix img⟩

def CV.adaptiveThresholdInv (cv : CV) (img : Img ℕ) : Img ℕ := ⟨img.h, img.w, cv.adaptivePix img⟩

def CV.gaussianBlur3 (cv : CV) (img : Img Pix) : Img Pix := ⟨img.h, img.w, cv.blurPix img⟩

/-- `cv2.inRange(hsv, lo, hi)`: 255 where every channel lies in the closed
range, 0 elsewhere. -/
def inRange (img : Img Pix) (lo hi : Pix) : Img ℕ :=
  ⟨img.h, img.w, fun r c =>
    let p := img.pix r c
    if lo.c0 ≤ p.c0 ∧ p.c0 ≤ hi.c0 ∧ lo.c1 ≤ p.c1 ∧ p.c1 ≤ hi.c1 ∧
        lo.c2 ≤ p.c2 ∧ p.c2 ≤ hi.c2 then 255 else 0⟩

/-- `cv2.bitwise_or` on single-channel masks. -/
def maskOr (a b : Img ℕ) : Img ℕ := ⟨a.h, a.w, fun r c => Nat.lor (a.pix r c) (b.pix r c)⟩

/-- `np.zeros(img.shape[:2], dtype=np.uint8)`. -/
def zerosMask (h w : ℕ) : Img ℕ := ⟨h, w, fun _ _ => 0⟩

/-- Neighborhood offsets of the `np.ones((3, 3))` structuring element. -/
def offs3 : List (ℤ × ℤ) :=
  [(-1, -1), (-1, 0), (-1, 1), (0, -1), (0, 0), (0, 1), (1, -1), (1, 0), (1, 1)]

/-- Neighborhood offsets of the `np.ones((2, 2))` structuring element. -/
def offs2 : List (ℤ × ℤ) := [(-1, -1), (-1, 0), (0, -1), (0, 0)]

/-- One `cv2.dilate` step: morphological maximum over the in-bounds
neighborhood (the constant border contributes nothing to a maximum). -/
def dilateOnce (offs : List (ℤ × ℤ)) (m : Img ℕ) : Img ℕ :=
  ⟨m.h, m.w, fun r c =>
    (offs.map (fun o =>
      let r' := (r : ℤ) + o.1
      let c' := (c : ℤ) + o.2
      if 0 ≤ r' ∧ r' < (m.h : ℤ) ∧ 0 ≤ c' ∧ c' < (m.w : ℤ) then m.pix r'.toNat c'.toNat
      else 0)).foldr max 0⟩

/-- One `cv2.erode` step: morphological minimum over the in-bounds
neighborhood (the saturated border contributes nothing to a minimum). -/
def erodeOnce (offs : List (ℤ × ℤ)) (m : Img ℕ) : Img ℕ :=
  ⟨m.h, m.w, fun r c =>
    (offs.map (fun o =>
      let r' := (r : ℤ) + o.1
      let c' := (c : ℤ) + o.2
      if 0 ≤ r' ∧ r' < (m.h : ℤ) ∧ 0 ≤ c' ∧ c' < (m.w : ℤ) then m.pix r'.toNat c'.toNat
      else 255)).foldr min 255⟩

/-! ## Ink-mask construction and baseline erase
(`erase_handwriting_process`, erase_server.py 47-132; identical logic in
`erase_handwriting_opencv`, main.py 693-783) -/

/-- The dark/black-handwriting detector (erase_server.py 96-111 /
main.py 742-759): adaptive inverted threshold on grayscale, dilate with a
2×2 kernel, erode with a 3×3 kernel. -/
def darkInkMask (cv : CV) (imgBGR : Img Pix) : Img ℕ :=
  let gray := cv.bgr2gray imgBGR
  let binary := cv.adaptiveThresholdInv gray
  let dilated := dilateOnce offs2 binary
  erodeOnce offs3 dilated

/-- The mask-union section of the baseline erase (erase_server.py 70-114 /
main.py 716-764), before the final double dilation.  Note the source
computes `darkInkMask` when `mode` is `black` **or** `auto`, but unions it
into the mask only under the inner `if mode == 'black'`. -/
def buildEraseMask (cv : CV) (imgBGR : Img Pix) (mode : String) : Img ℕ :=
  let hsv := cv.bgr2hsv imgBGR
  let mask0 := zerosMask imgBGR.h imgBGR.w
  let mask1 :=
    if mode = "blue" ∨ mode = "auto" ∨ mode = "color" then
      maskOr mask0 (inRange hsv ⟨90, 50, 50⟩ ⟨130, 255, 255⟩)
    else mask0
  let mask2 :=
    if mode = "color" ∨ mode = "auto" then
      let m1 := maskOr mask1 (inRange hsv ⟨0, 50, 50⟩ ⟨10, 255, 255⟩)
      let m2 := maskOr m1 (inRange hsv ⟨170, 50, 50⟩ ⟨180, 255, 255⟩)
      maskOr m2 (inRange hsv ⟨35, 50, 50⟩ ⟨85, 255, 255⟩)
    else mask1
  let mask3 :=
    if mode = "black" ∨ mode = "auto" then
      if mode = "black" then maskOr mask2 (darkInkMask cv imgBGR) else mask2
    else mask2
  mask3

/-- The final mask actually applied: the union dilated twice with the 3×3
kernel (erase_server.py 117-118 / main.py 767-768). -/
def finalEraseMask (cv : CV) (imgBGR : Img Pix) (mode : String) : Img ℕ :=
  dilateOnce offs3 (dilateOnce offs3 (buildEraseMask cv imgBGR mode))

/-- `result[mask > 0] = [255, 255, 255]`. -/
def fillWhiteWhere (img : Img Pix) (mask : Img ℕ) : Img Pix :=
  ⟨img.h, img.w, fun r c => if mask.pix r c > 0 then ⟨255, 255, 255⟩ else img.pix r c⟩

/-- `erase_handwriting_process` (erase_server.py 47-132), line-for-line the
same computation as `erase_handwriting_opencv` (main.py 693-783): build the
mode-dependent mask, dilate twice, flat-fill with white, and in `auto` mode
blur the dilated mask region. -/
def erase_handwriting_opencv (cv : CV) (imgArray : Img Pix) (mode : String) : Img Pix :=
  let imgBGR := cvtRGB2BGR imgArray
  let mask := finalEraseMask cv imgBGR mode
  let result := fillWhiteWhere imgBGR mask
  let result2 :=
    if mode = "auto" then
      let blurMask := dilateOnce offs3 mask
      let blurred := cv.gaussianBlur3 result
      ⟨result.h, result.w, fun r c =>
        if blurMask.pix r c > 0 then blurred.pix r c else result.pix r c⟩
    else result
  cvtBGR2RGB result2

/-! ## Enhanced (inpainting) erase and its fallback
(`erase_handwriting_ai`, main.py 619-690) -/

/-- The body of the `try` block of `erase_handwriting_ai` (main.py 634-686):
union of the four hue masks and the dark-ink mask, double dilation, then
`cv2.inpaint(img_bgr, mask, 3, cv2.INPAINT_TELEA)` — the fallible step,
passed as `inpaint` — followed by a light blur.  Any raised error is
propagated as `Except.error`. -/
def erase_ai_enhanced (cv : CV) (inpaint : Img Pix → Img ℕ → Except String (Img Pix))
    (imgArray : Img Pix) : Except String (Img Pix) :=
  let imgBGR := cvtRGB2BGR imgArray
  let hsv := cv.bgr2hsv imgBGR
  let mask0 := zerosMask imgBGR.h imgBGR.w
  let mask1 := maskOr mask0 (inRange hsv ⟨90, 50, 50⟩ ⟨130, 255, 255⟩)
  let mask2 := maskOr mask1 (inRange hsv ⟨0, 50, 50⟩ ⟨10, 255, 255⟩)
  let mask3 := maskOr mask2 (inRange hsv ⟨170, 50, 50⟩ ⟨180, 255, 255⟩)
  let mask4 := maskOr mask3 (inRange hsv ⟨35, 50, 50⟩ ⟨85, 255, 255⟩)
  let mask5 := maskOr mask4 (darkInkMask cv imgBGR)
  let mask := dilateOnce offs3 (dilateOnce offs3 mask5)
  match inpaint imgBGR mask with
  | Except.error e => Except.error e
  | Except.ok result => Except.ok (cvtBGR2RGB (cv.gaussianBlur3 result))

/-- `erase_handwriting_ai` (main.py 619-690): if the cleaner handle is
unavailable, or if anything in the enhanced path raises, fall back to the
baseline OpenCV erase in mode `auto`; otherwise return the enhanced result. -/
def erase_handwriting_ai (cv : CV) (inpaint : Img Pix → Img ℕ → Except String (Img Pix))
    (cleaner : Option Unit) (imgArray : Img Pix) : Img Pix :=
  match cleaner with
  | none => erase_handwriting_opencv cv imgArray "auto"
  | some _ =>
    match erase_ai_enhanced cv inpaint imgArray with
    | Except.ok result => result
    | Except.error _ => erase_handwriting_opencv cv imgArray "auto"

/-! ## Whitespace cropping (`auto_crop_whitespace`, erase_server.py 285-316) -/

/-- `cv2.threshold(gray, 250, 255, cv2.THRESH_BINARY_INV)`: near-white
(`> 250`) becomes 0, content becomes 255. -/
def thresholdBinInv250 (gray : Img ℕ) : Img ℕ :=
  ⟨gray.h, gray.w, fun r c => if gray.pix r c > 250 then 0 else 255⟩

/-- `cv2.findNonZero(binary)`: the in-bounds coordinates (row, column) of
nonzero pixels in scan order; the `None` result is the empty list. -/
def findNonZero (m : Img ℕ) : List (ℕ × ℕ) :=
  (List.range m.h).flatMap fun r =>
    (List.range m.w).filterMap fun c => if m.pix r c ≠ 0 then some (r, c) else none

/-- `auto_crop_whitespace` (erase_server.py 285-316): threshold, bounding
box of nonzero pixels (`cv2.boundingRect`), pad, clip to the image, crop;
the image is returned unchanged when no nonzero pixel exists. -/
def auto_crop_whitespace (cv : CV) (img : Img Pix) (padding : ℕ) : Img Pix :=
  let gray := cv.bgr2gray img
  let binary := thresholdBinInv250 gray
  let coords := findNonZero binary
  match coords with
  | [] => img
  | p :: ps =>
    let rs := (p :: ps).map Prod.fst
    let cs := (p :: ps).map Prod.snd
    let y0 := rs.foldr min p.1
    let x0 := cs.foldr min p.2
    let yM := rs.foldr max p.1
    let xM := cs.foldr max p.2
    let bw := xM - x0 + 1
    let bh := yM - y0 + 1
    let x1 := x0 - padding
    let y1 := y0 - padding
    let w1 := min (img.w - x1) (bw + 2 * padding)
    let h1 := min (img.h - y1) (bh + 2 * padding)
    ⟨h1, w1, fun r c => img.pix (y1 + r) (x1 + c)⟩

/-! ## Perspective warp output buffer (`perspective_transform`, erase_server.py 251-282) -/

/-- `perspective_transform` (erase_server.py 251-282): order the corners,
compute the target size, and warp into a new buffer of exactly that size
(`cv2.warpPerspective(img, M, (maxWidth, maxHeight))`, whose pixel content
is the collaborator `warp`). -/
def perspective_transform (warp : Img Pix → List Point → ℕ → ℕ → ℕ → ℕ → Pix)
    (img : Img Pix) (pts : List Point) : Img Pix :=
  let sz := perspective_transform_size pts
  ⟨sz.2, sz.1, warp img pts sz.1 sz.2⟩

/-! ## Concrete collaborator instantiations used as test vectors -/

/-- A concrete collaborator: every HSV value is (0,0,0) (no hue detection
fires), grayscale is a uniform dark 10, the adaptive threshold marks every
pixel as dark ink (255), and the blur is the identity. -/
def cvProbe : CV where
  hsvPix := fun _ _ _ => ⟨0, 0, 0⟩
  grayPix := fun _ _ _ => 10
  adaptivePix := fun _ _ _ => 255
  blurPix := fun i r c => i.pix r c

/-- A 1×1 image holding a single dark pixel: black handwriting with no
colored ink. -/
def darkDot : Img Pix := ⟨1, 1, fun _ _ => ⟨10, 10, 10⟩⟩

/-- A concrete collaborator reporting a uniformly near-white page
(grayscale 255 everywhere, no hue detection, no adaptive response). -/
def cvWhiteProbe : CV where
  hsvPix := fun _ _ _ => ⟨0, 0, 0⟩
  grayPix := fun _ _ _ => 255
  adaptivePix := fun _ _ _ => 0
  blurPix := fun i r c => i.pix r c

/-- An inpainting collaborator that always raises. -/
def inpaintFail : Img Pix → Img ℕ → Except String (Img Pix) :=
  fun _ _ => Except.error "inpaint failed"

/-! ## Text-line classification (`split_by_question_number`, main.py 914-1097)

The Python regular expressions are translated into direct parsers over
character lists.  Every numbering template constrains the characters that
may follow the greedy `\d{1,2}` / `[一二三四五六七八九十]+` groups to
classes disjoint from the group's own class, so the greedy reading used
here coincides with the regex engine's backtracking semantics. -/

abbrev Chars := List Char

/-- Consume `\s*`. -/
def skipWs : Chars → Chars
  | [] => []
  | c :: cs => if c.isWhitespace then skipWs cs else c :: cs

def digitVal (c : Char) : ℕ := c.toNat - '0'.toNat

/-- `^\s*(\d{1,2})` (greedy): skip whitespace, read two digits if present,
otherwise one; returns the parsed value and the rest. -/
def parseNum12 (s : Chars) : Option (ℕ × Chars) :=
  match skipWs s with
  | [] => none
  | d1 :: rest =>
    if d1.isDigit then
      match rest with
      | d2 :: rest2 =>
        if d2.isDigit then some (10 * digitVal d1 + digitVal d2, rest2)
        else some (digitVal d1, rest)
      | [] => some (digitVal d1, [])
    else none

/-- The separator class `[\.、．::：]` of the numbering templates. -/
def sepClass1 : Chars := ['.', '、', '．', ':', '：']

/-- Does the first character (if any) belong to the class? -/
def headIn (cls : Chars) (s : Chars) : Bool :=
  match s with
  | c :: _ => cls.contains c
  | [] => false

/-- Template `^\s*(\d{1,2})\s*[\.、．::：]`. -/
def pat_num_sep (s : Chars) : Option ℕ :=
  match parseNum12 s with
  | some (n, r) => if headIn sepClass1 (skipWs r) then some n else none
  | none => none

/-- Template `^\s*(\d{1,2})\s*[,，]?\s*[若设已如当则求]`. -/
def pat_num_trans (s : Chars) : Option ℕ :=
  match parseNum12 s with
  | some (n, r) =>
    let r1 := skipWs r
    let r2 := match r1 with
      | c :: cs => if c = ',' ∨ c = '，' then skipWs cs else r1
      | [] => r1
    if headIn ['若', '设', '已', '如', '当', '则', '求'] r2 then some n else none
  | none => none

/-- Templates `^\s*[（(]\s*(\d{1,2})\s*[）)]`, `^\s*\[\s*(\d{1,2})\s*\]`
and the brace-wrapped variant, generic in the bracket classes. -/
def pat_wrapped (opens closes : Chars) (s : Chars) : Option ℕ :=
  match skipWs s with
  | c :: cs =>
    if opens.contains c then
      match parseNum12 cs with
      | some (n, r) => if headIn closes (skipWs r) then some n else none
      | none => none
    else none
  | [] => none

def chineseDigits : Chars := ['一', '二', '三', '四', '五', '六', '七', '八', '九']

def chineseClass : Chars := chineseDigits ++ ['十']

/-- `chinese_num_map` (main.py 927-932). -/
def chineseNumMap : List (Chars × ℕ) :=
  [(['一'], 1), (['二'], 2), (['三'], 3), (['四'], 4), (['五'], 5),
   (['六'], 6), (['七'], 7), (['八'], 8), (['九'], 9), (['十'], 10),
   (['十', '一'], 11), (['十', '二'], 12), (['十', '三'], 13), (['十', '四'], 14),
   (['十', '五'], 15), (['十', '六'], 16), (['十', '七'], 17), (['十', '八'], 18),
   (['十', '九'], 19), (['二', '十'], 20)]

/-- `chinese_num_map.get(num_str)`. -/
def lookupChinese (s : Chars) : Option ℕ := List.lookup s chineseNumMap

/-- Template `^\s*(十[一二三四五六七八九]?)\s*[\.、．::：]`. -/
def pat_chinese_ten (s : Chars) : Option ℕ :=
  match skipWs s with
  | '十' :: cs =>
    match cs with
    | d :: rest =>
      if chineseDigits.contains d then
        if headIn sepClass1 (skipWs rest) then lookupChinese ['十', d] else none
      else if headIn sepClass1 (skipWs cs) then lookupChinese ['十'] else none
    | [] => none
  | _ => none

/-- Template `^\s*([一二三四五六七八九])\s*[\.、．::：]`. -/
def pat_chinese_single (s : Chars) : Option ℕ :=
  match skipWs s with
  | c :: cs =>
    if chineseDigits.contains c then
      if headIn sepClass1 (skipWs cs) then lookupChinese [c] else none
    else none
  | [] => none

/-- Template `^\s*第\s*(\d{1,2})\s*题`. -/
def pat_di_num (s : Chars) : Option ℕ :=
  match skipWs s with
  | '第' :: cs =>
    match parseNum12 cs with
    | some (n, r) => if headIn ['题'] (skipWs r) then some n else none
    | none => none
  | _ => none

/-- Template `^\s*第\s*([一二三四五六七八九十]+)\s*题`. -/
def pat_di_chinese (s : Chars) : Option ℕ :=
  match skipWs s with
  | '第' :: cs =>
    let cs1 := skipWs cs
    let run := cs1.takeWhile (chineseClass.contains ·)
    let rest := cs1.dropWhile (chineseClass.contains ·)
    if run = [] then none
    else if headIn ['题'] (skipWs rest) then lookupChinese run else none
  | _ => none

/-- Template `^\s*(\d{1,2})\s*$` (a standalone numeric line). -/
def pat_num_only (s : Chars) : Option ℕ :=
  match parseNum12 s with
  | some (n, r) => if skipWs r = [] then some n else none
  | none => none

/-- The `question_patterns` loop of `split_by_question_number`
(main.py 935-955, 1043-1047): templates tried in order, first producing a
number wins; a template that matches but maps to no number (a chinese
numeral outside the table) falls through to the next template, as in the
source. -/
def extract_question_number (s : Chars) : Option ℕ :=
  pat_num_sep s <|> pat_num_trans s <|>
  pat_wrapped ['（', '('] ['）', ')'] s <|>
  pat_wrapped ['['] [']'] s <|>
  pat_wrapped ['\x7b'] ['\x7d'] s <|>
  pat_chinese_ten s <|> pat_chinese_single s <|>
  pat_di_num s <|> pat_di_chinese s <|>
  pat_num_only s

/-- Is `kw` a contiguous subsequence of `s` (Python `kw in text` /
`re.search` of a literal)? -/
def containsSeq (kw : Chars) (s : Chars) : Bool := s.tails.any fun t => kw.isPrefixOf t

/-- `noise_keywords` (main.py 995-1000). -/
def noiseKeywords : List String :=
  ["答题前", "考生务必", "姓名", "考生号", "考场", "座位",
   "考试结束", "试卷和答题卡", "一并交回",
   "本试卷", "考试内容", "必修", "第六章",
   "注意事项", "答题卡", "密封线"]

/-- `any(kw in text for kw in noise_keywords)` (main.py 1031). -/
def isNoiseLine (s : Chars) : Bool := noiseKeywords.any fun kw => containsSeq kw.data s

def sectionPunct : Chars := ['.', '、', '．']

/-- One anchored attempt of a section-header pattern
`[一二三四五六七八九十]+\s*[\.、．]?\s*(alt₁|alt₂|…)`. -/
def matchSectionHere (kws : List String) (t : Chars) : Bool :=
  let run := t.takeWhile (chineseClass.contains ·)
  let rest := t.dropWhile (chineseClass.contains ·)
  if run.isEmpty then false
  else
    let r1 := skipWs rest
    let r2 := match r1 with
      | c :: cs => if sectionPunct.contains c then skipWs cs else r1
      | [] => r1
    kws.any fun kw => kw.data.isPrefixOf r2

/-- `re.search` of a section-header pattern: an anchored match at any
position. -/
def searchSection (kws : List String) (s : Chars) : Bool := s.tails.any (matchSectionHere kws)

/-- `section_patterns` (main.py 968-978). -/
def sectionPatterns : List (List String × String) :=
  [(["选择", "单选", "多选"], "选择题"),
   (["填空"], "填空题"),
   (["解答", "计算"], "解答题"),
   (["判断", "是非"], "判断题"),
   (["简答"], "简答题"),
   (["论述"], "论述题"),
   (["词汇"], "词汇题"),
   (["阅读"], "阅读理解"),
   (["写作", "作文"], "写作题")]

/-- The section-header scan (main.py 1036-1040): first matching pattern
sets the section type. -/
def matchSectionType (s : Chars) : Option String :=
  (sectionPatterns.find? fun p => searchSection p.1 s).map (·.2)

/-- One anchored attempt of `（\s*）` / `(\s*)`. -/
def parenWsAt (op cl : Char) (t : Chars) : Bool :=
  match t with
  | c :: cs => c == op && headIn [cl] (skipWs cs)
  | [] => false

def searchParenWs (op cl : Char) (s : Chars) : Bool := s.tails.any (parenWsAt op cl)

/-- `detect_question_type` (main.py 980-987, 1018-1024): the
`question_type_keywords` table scanned in insertion order, first matching
type wins; `A\.` and friends are literal searches, `_+`/`—+`/`＿+` reduce
to single-character searches, `（\s*）` to the bracket-whitespace scan. -/
def detect_question_type (s : Chars) : Option String :=
  if containsSeq "A.".data s || containsSeq "B.".data s || containsSeq "C.".data s ||
      containsSeq "D.".data s || containsSeq "A．".data s || containsSeq "B．".data s ||
      searchParenWs '（' '）' s || searchParenWs '(' ')' s || containsSeq "选项".data s then
    some "选择题"
  else if containsSeq "_".data s || containsSeq "—".data s || containsSeq "＿".data s ||
      containsSeq "填入".data s || containsSeq "填写".data s then
    some "填空题"
  else if containsSeq "对错".data s || containsSeq "正确".data s || containsSeq "错误".data s ||
      containsSeq "√".data s || containsSeq "×".data s || containsSeq "对的打".data s ||
      containsSeq "错的打".data s then
    some "判断题"
  else if containsSeq "求".data s || containsSeq "证明".data s || containsSeq "解答".data s ||
      containsSeq "计算".data s || containsSeq "化简".data s then
    some "解答题"
  else if containsSeq "简述".data s || containsSeq "说明".data s || containsSeq "解释".data s ||
      containsSeq "分析".data s then
    some "简答题"
  else none

/-! ## Question assembly (`split_by_question_number` main loop, main.py 989-1097) -/

/-- An OCR line record: recognized text and its top coordinate. -/
structure LineRec where
  text : String
  y0 : ℤ
deriving DecidableEq, Repr

/-- The per-question accumulator dict of `split_by_question_number`
(main.py 1069-1076). -/
structure QRecord where
  index : ℕ
  y0 : ℤ
  y1 : ℤ
  first_line : String
  lines : List String
  qtype : Option String
deriving DecidableEq, Repr

/-- The loop state: emitted questions, the open question, the section-type
context and the set of used numbers. -/
structure SplitState where
  questions : List QRecord
  current : Option QRecord
  currentSectionType : Option String
  used : List ℕ
deriving DecidableEq, Repr

/-- One iteration of the line loop (main.py 1026-1089).  Noise lines are
skipped outright; otherwise the section context updates first; a line with
an extracted number that is already used or outside `[1, 100]` is skipped
(`continue`), one with a fresh valid number closes the open question
(`y1 := y0 - 5`, `first_line` appended to its lines) and opens a new one,
and any other line is appended to the open question (opportunistically
filling its type) or dropped when no question is open. -/
def splitStep (height : ℤ) (st : SplitState) (line : LineRec) : SplitState :=
  let text := line.text.data
  if isNoiseLine text then st
  else
    let sec := match matchSectionType text with
      | some t => some t
      | none => st.currentSectionType
    match extract_question_number text with
    | some n =>
      if n ∈ st.used then { st with currentSectionType := sec }
      else if n < 1 ∨ n > 100 then { st with currentSectionType := sec }
      else
        let detected := match detect_question_type text with
          | some t => some t
          | none => sec
        let closed := match st.current with
          | some cq =>
            st.questions ++ [{ cq with y1 := line.y0 - 5, lines := cq.lines ++ [cq.first_line] }]
          | none => st.questions
        { questions := closed
          current := some ⟨n, line.y0, height, line.text, [], detected⟩
          currentSectionType := sec
          used := st.used ++ [n] }
    | none =>
      match st.current with
      | some cq =>
        let cq1 := { cq with lines := cq.lines ++ [line.text] }
        let cq2 := if cq1.qtype = none then { cq1 with qtype := detect_question_type text } else cq1
        { st with current := some cq2, currentSectionType := sec }
      | none => { st with currentSectionType := sec }

/-- The full loop plus the end-of-input flush (main.py 1026-1094): the
questions in discovery order. -/
def assembleQuestions (ls : List LineRec) (height : ℤ) : List QRecord :=
  let st := ls.foldl (splitStep height) ⟨[], none, none, []⟩
  match st.current with
  | some cq => st.questions ++ [{ cq with lines := cq.lines ++ [cq.first_line] }]
  | none => st.questions

/-- `split_by_question_number` up to its `questions.sort(key=index)`
(main.py 1096-1097): the discovery-order questions re-sorted ascending by
extracted index before the cropping loop. -/
def split_by_question_number (ls : List LineRec) (height : ℤ) : List QRecord :=
  List.insertionSort (fun a b => a.index ≤ b.index) (assembleQuestions ls height)

instance : IsTotal QRecord (fun a b => a.index ≤ b.index) :=
  ⟨fun a b => Nat.le_total a.index b.index⟩

instance : IsTrans QRecord (fun a b => a.index ≤ b.index) :=
  ⟨fun _ _ _ hab hbc => Nat.le_trans hab hbc⟩

/-! ## Stem/option parsing (`parse_question_content`, main.py 1154-1236) -/

/-- The literal members of the parser's `noise_words` (main.py 1165-1169). -/
def parserNoiseLit : List String :=
  ["弥封线", "密封线", "装订线", "答题卡", "考生须知",
   "注意事项", "姓名", "班级", "学校", "考号", "不要答题"]

/-- `re.search` of `a.*b`: an occurrence of `a` with an occurrence of `b`
somewhere after it. -/
def searchSandwich (a b : Char) (s : Chars) : Bool :=
  s.tails.any fun t =>
    match t with
    | c :: r => c == a && r.contains b
    | [] => false

/-- `any(re.search(w, line) for w in noise_words)` (main.py 1179): literal
searches plus the two wildcard patterns `第.*页` and `共.*页`. -/
def isParserNoise (s : Chars) : Bool :=
  parserNoiseLit.any (fun kw => containsSeq kw.data s) ||
    searchSandwich '第' '页' s || searchSandwich '共' '页' s

/-- Python `text.split('\n')`. -/
def splitLines : Chars → List Chars
  | [] => [[]]
  | c :: cs =>
    if c = '\n' then [] :: splitLines cs
    else
      match splitLines cs with
      | h :: t => (c :: h) :: t
      | [] => [[c]]

/-- Python `str.strip()`: drop leading and trailing whitespace. -/
def trimChars (s : Chars) : Chars := (skipWs (skipWs s).reverse).reverse

/-- Python `' '.join(...)`. -/
def joinSpace : List Chars → Chars
  | [] => []
  | [l] => l
  | l :: l2 :: ls => l ++ ' ' :: joinSpace (l2 :: ls)

/-- Lines 1172-1184: split on newlines, strip each line, drop empty and
noisy lines, re-join with single spaces. -/
def cleanTextOf (ocr_text : String) : Chars :=
  let lines := splitLines ocr_text.data
  let clean := lines.filterMap fun l =>
    let t := trimChars l
    if t = [] then none
    else if isParserNoise t then none
    else some t
  joinSpace clean

/-- The option-label class `[A-Da-d]`. -/
def isOptLabel (c : Char) : Bool :=
  (decide ('A' ≤ c) && decide (c ≤ 'D')) || (decide ('a' ≤ c) && decide (c ≤ 'd'))

/-- One `re` match of an option marker: span `[ms, me)` and the captured
label. -/
structure OMatch where
  ms : ℕ
  me : ℕ
  label : Char
deriving DecidableEq, Repr

/-- Length of the leading whitespace run. -/
def wsCount : Chars → ℕ
  | [] => 0
  | c :: cs => if c.isWhitespace then wsCount cs + 1 else 0

/-- Fueled worker for `findIter1`: every step strictly shortens the text,
so fuel equal to the text length is never exhausted; the fuel only makes
the recursion structural. -/
def findIter1F : ℕ → ℕ → Chars → List OMatch
  | 0, _, _ => []
  | _, _, [] => []
  | fuel + 1, p, c :: cs =>
    if isOptLabel c then
      match cs with
      | s :: rest =>
        if sepClass1.contains s then
          let k := wsCount rest
          ⟨p, p + 2 + k, c⟩ :: findIter1F fuel (p + 2 + k) (rest.drop k)
        else findIter1F fuel (p + 1) (s :: rest)
      | [] => []
    else findIter1F fuel (p + 1) cs

/-- `re.finditer` of the first option template `([A-Da-d])[\.、．::：]\s*`
(main.py 1190): non-overlapping left-to-right matches; `p` is the absolute
position of the remaining text. -/
def findIter1 (p : ℕ) (s : Chars) : List OMatch := findIter1F s.length p s

/-- The `\s+(?=[^A-Za-z])` suffix of the second option template, applied to
the characters after the label: the greedy whitespace run shrinks by one
step when the lookahead sees a letter, and the run must keep length ≥ 1.
Returns the number of whitespace characters the match consumes. -/
def runEndLen (rest : Chars) : Option ℕ :=
  let k := wsCount rest
  if k = 0 then none
  else
    match rest.drop k with
    | c :: _ => if c.isAlpha then (if 2 ≤ k then some (k - 1) else none) else some k
    | [] => if 2 ≤ k then some (k - 1) else none

/-- The `^`-anchored alternative of `(?:^|\s)([A-Da-d])\s+(?=[^A-Za-z])`:
label then whitespace; returns the label and the consumed whitespace
count. -/
def try2Start : Chars → Option (Char × ℕ)
  | l :: rest => if isOptLabel l then (runEndLen rest).map fun k => (l, k) else none
  | [] => none

/-- The `\s`-prefixed alternative: a whitespace, the label, then
whitespace. -/
def try2Sp : Chars → Option (Char × ℕ)
  | w :: l :: rest =>
    if w.isWhitespace && isOptLabel l then (runEndLen rest).map fun k => (l, k) else none
  | _ => none

/-- Fueled worker for `findIter2` (fuel = text length, never exhausted);
the Boolean flag records whether `^` can still match. -/
def findIter2F : ℕ → ℕ → Bool → Chars → List OMatch
  | 0, _, _, _ => []
  | _, _, _, [] => []
  | fuel + 1, p, atStart, c :: cs =>
    match (if atStart then try2Start (c :: cs) else none) with
    | some (l, k) => ⟨p, p + 1 + k, l⟩ :: findIter2F fuel (p + 1 + k) false (cs.drop k)
    | none =>
      match try2Sp (c :: cs) with
      | some (l, k) => ⟨p, p + 2 + k, l⟩ :: findIter2F fuel (p + 2 + k) false (cs.drop (k + 1))
      | none => findIter2F fuel (p + 1) false cs

/-- `re.finditer` of the second option template
`(?:^|\s)([A-Da-d])\s+(?=[^A-Za-z])` (main.py 1191). -/
def findIter2 (p : ℕ) (atStart : Bool) (s : Chars) : List OMatch :=
  findIter2F s.length p atStart s

/-- Lines 1195-1200: try the two templates in order and keep the first
yielding at least two matches; otherwise no options are present. -/
def chosenMatches (ct : Chars) : List OMatch :=
  let f1 := findIter1 0 ct
  if 2 ≤ f1.length then f1
  else
    let f2 := findIter2 0 true ct
    if 2 ≤ f2.length then f2 else []

/-- A parsed option: single uppercase label plus content. -/
structure QOption where
  label : Char
  content : String
deriving DecidableEq, Repr

instance : IsTotal QOption (fun a b => a.label ≤ b.label) :=
  ⟨fun a b => le_total a.label b.label⟩

instance : IsTrans QOption (fun a b => a.label ≤ b.label) :=
  ⟨fun _ _ _ hab hbc => le_trans hab hbc⟩

/-- `clean_text[a:b]`. -/
def sliceChars (ct : Chars) (a b : ℕ) : Chars := (ct.drop a).take (b - a)

/-- The option-extraction loop (main.py 1211-1231): content runs from a
match's end to the next match's start (or the end of text), duplicate
labels after the first are skipped, empty contents are dropped. -/
def extractOptions (ct : Chars) : List (OMatch × ℕ) → List Char → List QOption
  | [], _ => []
  | (m, nxt) :: rest, found =>
    let lab := m.label.toUpper
    if lab ∈ found then extractOptions ct rest found
    else
      let content := trimChars (sliceChars ct m.me nxt)
      let tail := extractOptions ct rest (lab :: found)
      if content = [] then tail else ⟨lab, String.mk content⟩ :: tail

/-- `parse_question_content` (main.py 1154-1236). -/
def parse_question_content (ocr_text : String) : String × List QOption :=
  if ocr_text = "" then ("", [])
  else
    let ct := cleanTextOf ocr_text
    let ms := chosenMatches ct
    match ms with
    | [] => (String.mk (trimChars ct), [])
    | m0 :: _ =>
      let stem := String.mk (trimChars (ct.take m0.ms))
      let nexts := (ms.drop 1).map (·.ms) ++ [ct.length]
      let opts := extractOptions ct (ms.zip nexts) []
      (stem, List.insertionSort (fun a b => a.label ≤ b.label) opts)

/-! # Theorems -/

/-! ## Helper lemmas -/

theorem selectMinBy_mem (f : Point → ℚ) : ∀ l : List Point, l ≠ [] → selectMinBy f l ∈ l
  | [], h => absurd rfl h
  | [p], _ => by simp [selectMinBy]
  | p :: q :: rest, _ => by
    simp only [selectMinBy]
    split
    · exact List.mem_cons_self _ _
    · exact List.mem_cons_of_mem _ (selectMinBy_mem f (q :: rest) (by simp))

theorem selectMinBy_le (f : Point → ℚ) : ∀ l : List Point, ∀ x ∈ l, f (selectMinBy f l) ≤ f x
  | [], x, hx => absurd hx (List.not_mem_nil x)
  | [p], x, hx => by
    simp only [List.mem_singleton] at hx
    subst hx; simp [selectMinBy]
  | p :: q :: rest, x, hx => by
    simp only [selectMinBy]
    rcases List.mem_cons.mp hx with rfl | hx'
    · split
      · exact le_refl _
      · next h => exact le_of_lt (lt_of_not_le h)
    · have hrec := selectMinBy_le f (q :: rest) x hx'
      split
      · next h => exact le_trans h hrec
      · exact hrec

theorem selectMaxBy_mem (f : Point → ℚ) : ∀ l : List Point, l ≠ [] → selectMaxBy f l ∈ l
  | [], h => absurd rfl h
  | [p], _ => by simp [selectMaxBy]
  | p :: q :: rest, _ => by
    simp only [selectMaxBy]
    split
    · exact List.mem_cons_of_mem _ (selectMaxBy_mem f (q :: rest) (by simp))
    · exact List.mem_cons_self _ _

theorem selectMaxBy_ge (f : Point → ℚ) : ∀ l : List Point, ∀ x ∈ l, f x ≤ f (selectMaxBy f l)
  | [], x, hx => absurd hx (List.not_mem_nil x)
  | [p], x, hx => by
    simp only [List.mem_singleton] at hx
    subst hx; simp [selectMaxBy]
  | p :: q :: rest, x, hx => by
    simp only [selectMaxBy]
    rcases List.mem_cons.mp hx with rfl | hx'
    · split
      · next h => exact le_of_lt h
      · exact le_refl _
    · have hrec := selectMaxBy_ge f (q :: rest) x hx'
      split
      · exact hrec
      · next h => exact le_trans hrec (not_lt.mp h)

/-! ## C7: corner ordering returns the (x+y)/(y−x) extremizers -/

/-- C7: for any 4 input points, `order_points` puts a point attaining the
minimum of x+y at `tl`, the maximum of x+y at `br`, the minimum of y−x at
`tr` and the maximum of y−x at `bl`; each returned corner is one of the
inputs. -/
theorem order_points_extremal_corners (pts : List Point) (h : pts.length = 4) :
    ((order_points pts).tl ∈ pts ∧
      ∀ p ∈ pts, (order_points pts).tl.1 + (order_points pts).tl.2 ≤ p.1 + p.2) ∧
    ((order_points pts).br ∈ pts ∧
      ∀ p ∈ pts, p.1 + p.2 ≤ (order_points pts).br.1 + (order_points pts).br.2) ∧
    ((order_points pts).tr ∈ pts ∧
      ∀ p ∈ pts, (order_points pts).tr.2 - (order_points pts).tr.1 ≤ p.2 - p.1) ∧
    ((order_points pts).bl ∈ pts ∧
      ∀ p ∈ pts, p.2 - p.1 ≤ (order_points pts).bl.2 - (order_points pts).bl.1) := by
  have hne : pts ≠ [] := by
    intro hnil
    rw [hnil] at h
    simp at h
  refine ⟨⟨?_, ?_⟩, ⟨?_, ?_⟩, ⟨?_, ?_⟩, ⟨?_, ?_⟩⟩
  · exact selectMinBy_mem (fun p => p.1 + p.2) pts hne
  · exact fun p hp => selectMinBy_le (fun p => p.1 + p.2) pts p hp
  · exact selectMaxBy_mem (fun p => p.1 + p.2) pts hne
  · exact fun p hp => selectMaxBy_ge (fun p => p.1 + p.2) pts p hp
  · exact selectMinBy_mem (fun p => p.2 - p.1) pts hne
  · exact fun p hp => selectMinBy_le (fun p => p.2 - p.1) pts p hp
  · exact selectMaxBy_mem (fun p => p.2 - p.1) pts hne
  · exact fun p hp => selectMaxBy_ge (fun p => p.2 - p.1) pts p hp

theorem order_points_extremal_corners_witness :
    (order_points [((0 : ℚ), (0 : ℚ)), (4, 0), (4, 3), (0, 3)]).tl ∈
      [((0 : ℚ), (0 : ℚ)), (4, 0), (4, 3), (0, 3)] ∧
    ∀ p ∈ [((0 : ℚ), (0 : ℚ)), (4, 0), (4, 3), (0, 3)],
      (order_points [((0 : ℚ), (0 : ℚ)), (4, 0), (4, 3), (0, 3)]).tl.1 +
        (order_points [((0 : ℚ), (0 : ℚ)), (4, 0), (4, 3), (0, 3)]).tl.2 ≤ p.1 + p.2 :=
  (order_points_extremal_corners [((0 : ℚ), (0 : ℚ)), (4, 0), (4, 3), (0, 3)] rfl).1

/-! ## C8: perspective target buffer dimensions -/

/-- C8: the warped buffer's width is the larger of the integer-truncated
bottom-edge (`br`–`bl`) and top-edge (`tr`–`tl`) lengths of the ordered
quad, its height the larger of the truncated right (`tr`–`br`) and left
(`tl`–`bl`) edge lengths; and `truncEdgeLen` really is the truncation of
the Euclidean edge length: its square is at most the squared length, which
is less than the square of its successor. -/
theorem perspective_output_dims_are_truncated_edge_maxima
    (warp : Img Pix → List Point → ℕ → ℕ → ℕ → ℕ → Pix) (img : Img Pix) (pts : List Point) :
    ((perspective_transform warp img pts).w =
        max (truncEdgeLen (order_points pts).br (order_points pts).bl)
          (truncEdgeLen (order_points pts).tr (order_points pts).tl) ∧
      (perspective_transform warp img pts).h =
        max (truncEdgeLen (order_points pts).tr (order_points pts).br)
          (truncEdgeLen (order_points pts).tl (order_points pts).bl)) ∧
    ∀ p q : Point,
      ((truncEdgeLen p q : ℚ)) ^ 2 ≤ edgeSq p q ∧
        edgeSq p q < ((truncEdgeLen p q : ℚ) + 1) ^ 2 := by
  refine ⟨⟨rfl, rfl⟩, fun p q => ?_⟩
  have hq : (0 : ℚ) ≤ edgeSq p q := add_nonneg (sq_nonneg _) (sq_nonneg _)
  have hfloor0 : (0 : ℤ) ≤ Int.floor (edgeSq p q) := Int.floor_nonneg.mpr hq
  have hn : ((Int.floor (edgeSq p q)).toNat : ℤ) = Int.floor (edgeSq p q) :=
    Int.toNat_of_nonneg hfloor0
  have hlow : (Nat.sqrt (Int.floor (edgeSq p q)).toNat) ^ 2 ≤ (Int.floor (edgeSq p q)).toNat :=
    Nat.sqrt_le' _
  have hhigh : (Int.floor (edgeSq p q)).toNat < (Nat.sqrt (Int.floor (edgeSq p q)).toNat + 1) ^ 2 :=
    Nat.lt_succ_sqrt' _
  have key1 : (((Int.floor (edgeSq p q)).toNat : ℕ) : ℚ) ≤ edgeSq p q := by
    calc (((Int.floor (edgeSq p q)).toNat : ℕ) : ℚ)
        = (((Int.floor (edgeSq p q)).toNat : ℤ) : ℚ) := by push_cast; ring
      _ = ((Int.floor (edgeSq p q) : ℤ) : ℚ) := by rw [hn]
      _ ≤ edgeSq p q := Int.floor_le _
  have key2 : edgeSq p q < (((Int.floor (edgeSq p q)).toNat : ℕ) : ℚ) + 1 := by
    calc edgeSq p q
        < ((Int.floor (edgeSq p q) : ℤ) : ℚ) + 1 := Int.lt_floor_add_one _
      _ = (((Int.floor (edgeSq p q)).toNat : ℤ) : ℚ) + 1 := by rw [hn]
      _ = (((Int.floor (edgeSq p q)).toNat : ℕ) : ℚ) + 1 := by push_cast; ring
  constructor
  · calc ((truncEdgeLen p q : ℚ)) ^ 2
        = (((Nat.sqrt (Int.floor (edgeSq p q)).toNat) ^ 2 : ℕ) : ℚ) := by
          push_cast [truncEdgeLen, intSqrt]; ring
      _ ≤ (((Int.floor (edgeSq p q)).toNat : ℕ) : ℚ) := by exact_mod_cast hlow
      _ ≤ edgeSq p q := key1
  · calc edgeSq p q
        < (((Int.floor (edgeSq p q)).toNat : ℕ) : ℚ) + 1 := key2
      _ = (((Int.floor (edgeSq p q)).toNat + 1 : ℕ) : ℚ) := by push_cast; ring
      _ ≤ (((Nat.sqrt (Int.floor (edgeSq p q)).toNat + 1) ^ 2 : ℕ) : ℚ) := by
          exact_mod_cast Nat.succ_le_of_lt hhigh
      _ = ((truncEdgeLen p q : ℚ) + 1) ^ 2 := by
          push_cast [truncEdgeLen, intSqrt]; ring

/-! ## C2: the `auto` mode of the baseline erase omits the dark-ink source -/

/-- C2 (failing input): on a 1×1 image whose only pixel the dark-ink
detector marks (value 255) while every hue mask is empty, the baseline
erase in mode `auto` leaves the final mask empty and the dark pixel
untouched, whereas mode `black` whitens it — the dark/black-handwriting
source is never unioned into the `auto` mask. -/
theorem auto_mode_omits_dark_ink_mask :
    (darkInkMask cvProbe (cvtRGB2BGR darkDot)).pix 0 0 = 255 ∧
    (finalEraseMask cvProbe (cvtRGB2BGR darkDot) "auto").pix 0 0 = 0 ∧
    (finalEraseMask cvProbe (cvtRGB2BGR darkDot) "black").pix 0 0 = 255 ∧
    (erase_handwriting_opencv cvProbe darkDot "auto").pix 0 0 = ⟨10, 10, 10⟩ ∧
    (erase_handwriting_opencv cvProbe darkDot "black").pix 0 0 = ⟨255, 255, 255⟩ := by
  decide

/-! ## C10: the non-auto erase modes only touch masked pixels -/

/-- C10: for modes `blue`, `black` and `color` the baseline erase keeps the
input dimensions and returns every pixel where the final twice-dilated mask
is zero unchanged. -/
theorem non_auto_erase_preserves_unmasked_pixels (cv : CV) (img : Img Pix) (mode : String)
    (hmode : mode = "blue" ∨ mode = "black" ∨ mode = "color") :
    (erase_handwriting_opencv cv img mode).h = img.h ∧
    (erase_handwriting_opencv cv img mode).w = img.w ∧
    ∀ r c, (finalEraseMask cv (cvtRGB2BGR img) mode).pix r c = 0 →
      (erase_handwriting_opencv cv img mode).pix r c = img.pix r c := by
  have hne : mode ≠ "auto" := by
    rcases hmode with h | h | h <;> (subst h; decide)
  refine ⟨?_, ?_, ?_⟩
  · simp [erase_handwriting_opencv, hne, cvtBGR2RGB, cvtRGB2BGR, fillWhiteWhere]
  · simp [erase_handwriting_opencv, hne, cvtBGR2RGB, cvtRGB2BGR, fillWhiteWhere]
  · intro r c h0
    simp only [erase_handwriting_opencv, if_neg hne, cvtBGR2RGB, fillWhiteWhere, h0]
    simp [cvtRGB2BGR]

theorem non_auto_erase_preserves_unmasked_pixels_witness :
    (erase_handwriting_opencv cvProbe darkDot "blue").pix 0 0 = darkDot.pix 0 0 :=
  (non_auto_erase_preserves_unmasked_pixels cvProbe darkDot "blue" (Or.inl rfl)).2.2 0 0
    (by decide)

/-! ## C4: enhanced-erase failures fall back to the baseline -/

/-- C4: `erase_handwriting_ai` always returns an image; when the enhanced
path raises (or the cleaner handle is unavailable) the result is exactly
the baseline flat-fill erase of the same input in mode `auto`, and the
error is never surfaced. -/
theorem enhanced_erase_error_falls_back_to_baseline (cv : CV)
    (inpaint : Img Pix → Img ℕ → Except String (Img Pix)) (cleaner : Option Unit)
    (imgArray : Img Pix) :
    (∀ e, erase_ai_enhanced cv inpaint imgArray = Except.error e →
      erase_handwriting_ai cv inpaint cleaner imgArray =
        erase_handwriting_opencv cv imgArray "auto") ∧
    (cleaner = none →
      erase_handwriting_ai cv inpaint cleaner imgArray =
        erase_handwriting_opencv cv imgArray "auto") ∧
    (∀ result, erase_ai_enhanced cv inpaint imgArray = Except.ok result → ∀ u, cleaner = some u →
      erase_handwriting_ai cv inpaint cleaner imgArray = result) := by
  refine ⟨?_, ?_, ?_⟩
  · intro e he
    cases cleaner with
    | none => rfl
    | some u => simp [erase_handwriting_ai, he]
  · intro hc
    subst hc
    rfl
  · intro result hr u hc
    subst hc
    simp [erase_handwriting_ai, hr]

theorem enhanced_erase_error_falls_back_to_baseline_witness :
    erase_handwriting_ai cvProbe inpaintFail (some ()) darkDot =
      erase_handwriting_opencv cvProbe darkDot "auto" :=
  (enhanced_erase_error_falls_back_to_baseline cvProbe inpaintFail (some ()) darkDot).1
    "inpaint failed" rfl

/-! ## C9: all-white pages pass through the whitespace cropper unchanged -/

/-- C9: when every in-bounds grayscale value exceeds the binarization
threshold 250, the inverted threshold leaves no nonzero pixel and
`auto_crop_whitespace` returns its input unchanged. -/
theorem auto_crop_returns_input_when_all_white (cv : CV) (img : Img Pix) (padding : ℕ)
    (hwhite : ∀ r c, r < img.h → c < img.w → 250 < cv.grayPix img r c) :
    auto_crop_whitespace cv img padding = img := by
  have hempty : findNonZero (thresholdBinInv250 (cv.bgr2gray img)) = [] := by
    rw [List.eq_nil_iff_forall_not_mem]
    intro x hx
    simp only [findNonZero, List.mem_flatMap, List.mem_filterMap, List.mem_range] at hx
    obtain ⟨r, hr, c, hc, hval⟩ := hx
    have h250 : 250 < cv.grayPix img r c := hwhite r c hr hc
    simp [thresholdBinInv250, CV.bgr2gray, h250] at hval
  simp [auto_crop_whitespace, hempty]

theorem auto_crop_returns_input_when_all_white_witness :
    auto_crop_whitespace cvWhiteProbe darkDot 10 = darkDot :=
  auto_crop_returns_input_when_all_white cvWhiteProbe darkDot 10
    (fun _ _ _ _ => by show (250 : ℕ) < 255; decide)

/-! ## C5: skew correction reports 0 or a clamped median angle -/

/-- C5: the skew corrector's returned angle is 0 (image unchanged) or has
absolute value in `[0.5, 15]`; when the median of the folded angles is
below 0.5 in absolute value the image is returned unchanged with angle 0;
otherwise the applied angle is exactly the median clamped to ±15. -/
theorem rotation_angle_zero_or_clamped {α : Type} (rotate : α → ℚ → α) (img : α)
    (hough : Option (List ℚ)) :
    (((detect_and_correct_rotation rotate img hough).2 = 0 ∧
        (detect_and_correct_rotation rotate img hough).1 = img) ∨
      (1/2 ≤ |(detect_and_correct_rotation rotate img hough).2| ∧
        |(detect_and_correct_rotation rotate img hough).2| ≤ 15)) ∧
    (∀ raw, hough = some raw → foldRawAngles raw ≠ [] →
      |npMedian (foldRawAngles raw)| < 1/2 →
      detect_and_correct_rotation rotate img hough = (img, 0)) ∧
    (∀ raw, hough = some raw → foldRawAngles raw ≠ [] →
      1/2 ≤ |npMedian (foldRawAngles raw)| →
      (detect_and_correct_rotation rotate img hough).2 =
        (if 15 < |npMedian (foldRawAngles raw)| then
          (if 0 < npMedian (foldRawAngles raw) then (15 : ℚ) else -15)
        else npMedian (foldRawAngles raw))) := by
  refine ⟨?_, ?_, ?_⟩
  · cases hough with
    | none => exact Or.inl ⟨rfl, rfl⟩
    | some raw =>
      by_cases he : foldRawAngles raw = []
      · exact Or.inl ⟨by simp only [detect_and_correct_rotation, if_pos he],
          by simp only [detect_and_correct_rotation, if_pos he]⟩
      · by_cases hm : |npMedian (foldRawAngles raw)| < 1/2
        · exact Or.inl ⟨by simp only [detect_and_correct_rotation, if_neg he, if_pos hm],
            by simp only [detect_and_correct_rotation, if_neg he, if_pos hm]⟩
        · right
          push_neg at hm
          by_cases hc : 15 < |npMedian (foldRawAngles raw)|
          · by_cases hp : 0 < npMedian (foldRawAngles raw)
            · have hval : (detect_and_correct_rotation rotate img (some raw)).2 = 15 := by
                simp only [detect_and_correct_rotation, if_neg he, if_neg (not_lt.mpr hm),
                  if_pos hc, if_pos hp]
              rw [hval]; norm_num
            · have hval : (detect_and_correct_rotation rotate img (some raw)).2 = -15 := by
                simp only [detect_and_correct_rotation, if_neg he, if_neg (not_lt.mpr hm),
                  if_pos hc, if_neg hp]
              rw [hval]; norm_num
          · have hval : (detect_and_correct_rotation rotate img (some raw)).2 =
                npMedian (foldRawAngles raw) := by
              simp only [detect_and_correct_rotation, if_neg he, if_neg (not_lt.mpr hm),
                if_neg hc]
            rw [hval]
            exact ⟨hm, not_lt.mp hc⟩
  · intro raw hs hne hlt
    subst hs
    simp only [detect_and_correct_rotation, if_neg hne, if_pos hlt]
  · intro raw hs hne hge
    subst hs
    simp only [detect_and_correct_rotation, if_neg hne, if_neg (not_lt.mpr hge)]

theorem rotation_angle_zero_or_clamped_witness :
    detect_and_correct_rotation (fun (n : ℕ) _ => n + 1) 7 (some [1/4, 1/4]) = (7, 0) :=
  (rotation_angle_zero_or_clamped (fun (n : ℕ) _ => n + 1) 7 (some [1/4, 1/4])).2.1 [1/4, 1/4]
    rfl
    (by
      have h : foldRawAngles [1/4, 1/4] = [1/4, 1/4] := by norm_num [foldRawAngles, abs, max_def]
      rw [h]
      exact List.cons_ne_nil _ _)
    (by norm_num [foldRawAngles, npMedian, List.insertionSort, List.orderedInsert, abs, max_def])

/-! ## C1: lines with duplicate or out-of-range numbers are skipped, not demoted -/

/-- C1 (counterexample): with question 1 closed and question 2 open, the
line `"1. repeat"` extracts the already-used number 1, and the assembled
output shows question 2's rawLines are exactly `["2. b"]` — the duplicate
line appears nowhere: it is dropped, not appended as a continuation. -/
theorem duplicate_number_line_is_dropped_counterexample :
    extract_question_number "1. repeat".data = some 1 ∧
    split_by_question_number [⟨"1. a", 10⟩, ⟨"2. b", 50⟩, ⟨"1. repeat", 90⟩] 200 =
      [⟨1, 10, 45, "1. a", ["1. a"], none⟩, ⟨2, 50, 200, "2. b", ["2. b"], none⟩] := by
  decide

/-- C1 (amended): a line whose extracted question number is outside
`[1, 100]` or already used on the page is skipped entirely: the loop state's
questions, open question and used-number set are all unchanged (only the
section-type context may move); in particular the line neither starts a new
question nor is appended to the open question's rawLines. -/
theorem invalid_number_line_leaves_assembly_state_unchanged (height : ℤ) (st : SplitState)
    (line : LineRec) (n : ℕ)
    (hn : extract_question_number line.text.data = some n)
    (hbad : n ∈ st.used ∨ n < 1 ∨ 100 < n) :
    (splitStep height st line).questions = st.questions ∧
    (splitStep height st line).current = st.current ∧
    (splitStep height st line).used = st.used := by
  by_cases hnoise : isNoiseLine line.text.data
  · simp only [splitStep, if_pos hnoise]
    exact ⟨trivial, trivial, trivial⟩
  · by_cases hmem : n ∈ st.used
    · simp only [splitStep, if_neg hnoise, hn, if_pos hmem]
      exact ⟨trivial, trivial, trivial⟩
    · have hrange : n < 1 ∨ 100 < n := by tauto
      simp only [splitStep, if_neg hnoise, hn, if_neg hmem, if_pos hrange]
      exact ⟨trivial, trivial, trivial⟩

theorem invalid_number_line_leaves_assembly_state_unchanged_witness :
    (splitStep 200 ⟨[], none, none, [1]⟩ ⟨"1. repeat", (90 : ℤ)⟩).questions = [] ∧
    (splitStep 200 ⟨[], none, none, [1]⟩ ⟨"1. repeat", (90 : ℤ)⟩).current = none ∧
    (splitStep 200 ⟨[], none, none, [1]⟩ ⟨"1. repeat", (90 : ℤ)⟩).used = [1] :=
  invalid_number_line_leaves_assembly_state_unchanged 200 ⟨[], none, none, [1]⟩
    ⟨"1. repeat", (90 : ℤ)⟩ 1 (by decide) (Or.inl (by decide))

/-! ## C3: per-page index uniqueness and the final index sort -/

/-- Loop invariant of the assembly loop: the indices of the emitted
questions together with the open question's index are pairwise distinct,
and all of them appear in the used-number set. -/
theorem splitStep_index_invariant (height : ℤ) (st : SplitState) (line : LineRec)
    (h1 : (st.questions.map QRecord.index ++ (st.current.map QRecord.index).toList).Nodup)
    (h2 : ∀ i ∈ st.questions.map QRecord.index ++ (st.current.map QRecord.index).toList,
      i ∈ st.used) :
    ((splitStep height st line).questions.map QRecord.index ++
        ((splitStep height st line).current.map QRecord.index).toList).Nodup ∧
    ∀ i ∈ (splitStep height st line).questions.map QRecord.index ++
        ((splitStep height st line).current.map QRecord.index).toList,
      i ∈ (splitStep height st line).used := by
  by_cases hnoise : isNoiseLine line.text.data
  · simp only [splitStep, if_pos hnoise]
    exact ⟨h1, h2⟩
  · rcases hq : extract_question_number line.text.data with _ | n
    · rcases hcur : st.current with _ | cq
      · simp only [splitStep, if_neg hnoise, hq, hcur]
        rw [hcur] at h1 h2
        exact ⟨h1, h2⟩
      · simp only [splitStep, if_neg hnoise, hq, hcur]
        rw [hcur] at h1 h2
        simp only [Option.map_some', Option.toList] at h1 h2 ⊢
        constructor
        · split
          · simpa using h1
          · simpa using h1
        · intro i hi
          rcases List.mem_append.mp hi with hi | hi
          · exact h2 _ (List.mem_append_left _ hi)
          · rw [List.mem_singleton] at hi
            subst hi
            refine h2 _ (List.mem_append_right _ ?_)
            rw [List.mem_singleton]
            split <;> rfl
    · by_cases hmem : n ∈ st.used
      · simp only [splitStep, if_neg hnoise, hq, if_pos hmem]
        exact ⟨h1, h2⟩
      · by_cases hrange : n < 1 ∨ 100 < n
        · simp only [splitStep, if_neg hnoise, hq, if_neg hmem, if_pos hrange]
          exact ⟨h1, h2⟩
        · simp only [splitStep, if_neg hnoise, hq, if_neg hmem, if_neg hrange]
          rcases hcur : st.current with _ | cq
          · rw [hcur] at h1 h2
            simp only [Option.map_none', Option.toList, List.append_nil] at h1 h2
            simp only [Option.map_some', Option.toList]
            constructor
            · refine List.Nodup.append h1 (List.nodup_singleton n) ?_
              intro a ha hb
              rw [List.mem_singleton] at hb
              subst hb
              exact hmem (h2 _ ha)
            · intro i hi
              rcases List.mem_append.mp hi with hi | hi
              · exact List.mem_append_left _ (h2 _ hi)
              · rw [List.mem_singleton] at hi
                subst hi
                exact List.mem_append_right _ (List.mem_singleton_self _)
          · rw [hcur] at h1 h2
            simp only [Option.map_some', Option.toList] at h1 h2
            simp only [Option.map_some', Option.toList, List.map_append, List.map_cons,
              List.map_nil]
            constructor
            · refine List.Nodup.append ?_ (List.nodup_singleton n) ?_
              · simpa using h1
              · intro a ha hb
                rw [List.mem_singleton] at hb
                subst hb
                refine hmem (h2 _ ?_)
                simpa using ha
            · intro i hi
              rcases List.mem_append.mp hi with hi | hi
              · refine List.mem_append_left _ (h2 _ ?_)
                simpa using hi
              · rw [List.mem_singleton] at hi
                subst hi
                exact List.mem_append_right _ (List.mem_singleton_self _)

/-- The invariant holds after folding the whole line list. -/
theorem foldl_splitStep_invariant (height : ℤ) :
    ∀ (ls : List LineRec) (st : SplitState),
      (st.questions.map QRecord.index ++ (st.current.map QRecord.index).toList).Nodup →
      (∀ i ∈ st.questions.map QRecord.index ++ (st.current.map QRecord.index).toList,
        i ∈ st.used) →
      ((ls.foldl (splitStep height) st).questions.map QRecord.index ++
          ((ls.foldl (splitStep height) st).current.map QRecord.index).toList).Nodup ∧
      ∀ i ∈ (ls.foldl (splitStep height) st).questions.map QRecord.index ++
          ((ls.foldl (splitStep height) st).current.map QRecord.index).toList,
        i ∈ (ls.foldl (splitStep height) st).used
  | [], _, h1, h2 => ⟨h1, h2⟩
  | l :: ls, st, h1, h2 => by
    have hstep := splitStep_index_invariant height st l h1 h2
    exact foldl_splitStep_invariant height ls (splitStep height st l) hstep.1 hstep.2

/-- The discovery-order question list has pairwise-distinct indices. -/
theorem assembleQuestions_index_nodup (ls : List LineRec) (height : ℤ) :
    ((assembleQuestions ls height).map QRecord.index).Nodup := by
  obtain ⟨hn, -⟩ :=
    foldl_splitStep_invariant height ls ⟨[], none, none, []⟩ (by simp) (by simp)
  simp only [assembleQuestions]
  rcases hcur : (ls.foldl (splitStep height) ⟨[], none, none, []⟩).current with _ | cq
  · rw [hcur] at hn
    simpa [Option.toList] using hn
  · rw [hcur] at hn
    simp only [Option.map_some', Option.toList] at hn
    simpa [List.map_append] using hn

/-- C3: the segmentation output has at most one question per numeric index
(the emitted indices are pairwise distinct) and is the discovery-order
list re-sorted ascending by index, hence its index sequence is sorted. -/
theorem split_questions_unique_and_sorted_by_index (ls : List LineRec) (height : ℤ) :
    ((split_by_question_number ls height).map QRecord.index).Nodup ∧
    List.Sorted (· ≤ ·) ((split_by_question_number ls height).map QRecord.index) ∧
    split_by_question_number ls height =
      List.insertionSort (fun a b => a.index ≤ b.index) (assembleQuestions ls height) := by
  refine ⟨?_, ?_, rfl⟩
  · have hperm : List.Perm (split_by_question_number ls height) (assembleQuestions ls height) :=
      List.perm_insertionSort _ _
    exact ((hperm.map QRecord.index).nodup_iff).mpr (assembleQuestions_index_nodup ls height)
  · have hs : List.Sorted (fun a b : QRecord => a.index ≤ b.index)
        (split_by_question_number ls height) :=
      List.sorted_insertionSort _ _
    rw [List.Sorted] at hs ⊢
    exact (List.pairwise_map).mpr hs

/-! ## C6: stem/option parsing -/

/-- The option-extraction loop emits pairwise-distinct labels, none of
which is in the already-found set. -/
theorem extractOptions_labels_fresh (ct : Chars) :
    ∀ (pairs : List (OMatch × ℕ)) (found : List Char),
      ((extractOptions ct pairs found).map QOption.label).Nodup ∧
      ∀ l ∈ (extractOptions ct pairs found).map QOption.label, l ∉ found
  | [], found => by simp [extractOptions]
  | (m, nxt) :: rest, found => by
    by_cases hmem : m.label.toUpper ∈ found
    · simp only [extractOptions, if_pos hmem]
      exact extractOptions_labels_fresh ct rest found
    · have ih := extractOptions_labels_fresh ct rest (m.label.toUpper :: found)
      simp only [extractOptions, if_neg hmem]
      by_cases hcontent : trimChars (sliceChars ct m.me nxt) = []
      · simp only [if_pos hcontent]
        refine ⟨ih.1, fun l hl => ?_⟩
        exact fun hf => (ih.2 l hl) (List.mem_cons_of_mem _ hf)
      · simp only [if_neg hcontent]
        constructor
        · rw [List.map_cons, List.nodup_cons]
          exact ⟨fun hmem2 => (ih.2 _ hmem2) (List.mem_cons_self _ _), ih.1⟩
        · intro l hl
          rw [List.map_cons, List.mem_cons] at hl
          rcases hl with rfl | hl
          · exact hmem
          · exact fun hf => (ih.2 l hl) (List.mem_cons_of_mem _ hf)

/-- C6: the content parser on `"求x的值 A.1 B.2 C.3"` returns stem
`"求x的值"` with options A=1, B=2, C=3; when neither option template
yields at least two matches the stem is the full cleaned text and the
options are empty; and for every input the returned option labels are
pairwise distinct (duplicates skipped) and sorted ascending. -/
theorem parse_question_content_templates_and_example :
    parse_question_content "求x的值 A.1 B.2 C.3" =
      ("求x的值", [⟨'A', "1"⟩, ⟨'B', "2"⟩, ⟨'C', "3"⟩]) ∧
    (∀ t : String, t ≠ "" →
      (findIter1 0 (cleanTextOf t)).length < 2 →
      (findIter2 0 true (cleanTextOf t)).length < 2 →
      parse_question_content t = (String.mk (trimChars (cleanTextOf t)), [])) ∧
    (∀ t : String,
      ((parse_question_content t).2.map QOption.label).Nodup ∧
      List.Sorted (· ≤ ·) ((parse_question_content t).2.map QOption.label)) := by
  refine ⟨by decide, ?_, ?_⟩
  · intro t ht h1 h2
    have hchosen : chosenMatches (cleanTextOf t) = [] := by
      simp only [chosenMatches, if_neg (not_le.mpr h1), if_neg (not_le.mpr h2)]
    simp only [parse_question_content, if_neg ht, hchosen]
  · intro t
    by_cases ht : t = ""
    · subst ht
      simp [parse_question_content]
    · simp only [parse_question_content, if_neg ht]
      rcases hm : chosenMatches (cleanTextOf t) with _ | ⟨m0, ms'⟩
      · simp
      · constructor
        · exact ((List.perm_insertionSort _ _).map QOption.label).nodup_iff.mpr
            ((extractOptions_labels_fresh (cleanTextOf t) _ []).1)
        · rw [List.Sorted, List.pairwise_map]
          exact List.sorted_insertionSort _ _

theorem parse_question_content_templates_and_example_witness :
    parse_question_content "hello there" = ("hello there", []) :=
  (parse_question_content_templates_and_example).2.1 "hello there" (by decide) (by decide)
    (by decide)
